import Mathlib

/-!
Verification of the Secret Santa organizer (`src/app/page.tsx` and
`src/app/api/send-emails/route.ts`).

The TypeScript functions are shallowly embedded as Lean functions.
Randomness (`Math.random`) is modelled by an explicit oracle argument:
`shuffle` receives `rand : Nat → Nat` and at Fisher–Yates step `i` draws
the index `rand i % (i + 1)`, which ranges over exactly the values
`Math.floor(Math.random() * (i + 1))` can take.  The assignment engine
receives `rand : Nat → Nat → Nat`, one oracle per retry attempt.  The Web
Crypto primitives used by the token encryptor and the mail provider used by
the route are environment capabilities, modelled as explicit structures.
-/

namespace SecretSanta

/-- The `Participant` record type of `page.tsx`. -/
structure Participant where
  id : String
  name : String
  email : String
deriving DecidableEq, Repr

instance : Inhabited Participant := ⟨⟨"", "", ""⟩⟩

/-- The `Assignment` record type of `page.tsx`. -/
structure Assignment where
  giver : Participant
  recipient : Participant
deriving DecidableEq, Repr

instance : Inhabited Assignment := ⟨⟨⟨"", "", ""⟩, ⟨"", "", ""⟩⟩⟩

/-- The destructuring swap `[a[i], a[j]] = [a[j], a[i]]` used inside `shuffle`.
If either index is out of bounds the list is unchanged (the source only ever
swaps in-bounds indices). -/
def listSwap {α : Type} (l : List α) (i j : Nat) : List α :=
  match l[i]?, l[j]? with
  | some x, some y => (l.set i y).set j x
  | _, _ => l

/-- The body of `shuffle`'s `for` loop, counting `i` down from `a.length - 1`
to `1`: at step `i` it swaps position `i` with position `rand i % (i + 1)`,
exactly `j = Math.floor(Math.random() * (i + 1))` of the source. -/
def shuffleLoop {α : Type} (rand : Nat → Nat) : Nat → List α → List α
  | 0, a => a
  | i + 1, a => shuffleLoop rand i (listSwap a (i + 1) (rand (i + 1) % (i + 2)))

/-- `shuffle` from `page.tsx`: a Fisher–Yates shuffle of a copy of the input,
with the random draws supplied by the oracle `rand`. -/
def shuffle {α : Type} (arr : List α) (rand : Nat → Nat) : List α :=
  shuffleLoop rand (arr.length - 1) arr

/-- The derangement check of `assignSecretSantas` (its inner `for` loop):
`true` iff no index `i` has `participants[i].id === recipients[i].id`. -/
def derangementOk (ps rs : List Participant) : Bool :=
  (List.range ps.length).all fun i => (ps.getD i default).id != (rs.getD i default).id

/-- The retry loop of `assignSecretSantas`: run the remaining `fuel` attempts
(numbered from `attempt`), returning the first shuffled candidate that passes
the derangement check, or `none` if every attempt fails. -/
def findDerangement (ps : List Participant) (rand : Nat → Nat → Nat) :
    Nat → Nat → Option (List Participant)
  | _, 0 => none
  | attempt, fuel + 1 =>
    if derangementOk ps (shuffle ps (rand attempt)) then some (shuffle ps (rand attempt))
    else findDerangement ps rand (attempt + 1) fuel

/-- The fallback of `assignSecretSantas`: recipient of the participant at
index `i` is the participant at index `(i + 1) % n`. -/
def rotationAssign (ps : List Participant) : List Assignment :=
  ps.mapIdx fun i p => ⟨p, ps.getD ((i + 1) % ps.length) default⟩

/-- `assignSecretSantas` from `page.tsx`: empty output below 2 participants,
otherwise up to 1000 random shuffle attempts, falling back to the rotation. -/
def assignSecretSantas (ps : List Participant) (rand : Nat → Nat → Nat) :
    List Assignment :=
  if ps.length < 2 then []
  else
    match findDerangement ps rand 0 1000 with
    | some rs => List.zipWith (fun p r => Assignment.mk p r) ps rs
    | none => rotationAssign ps

/-- The input precondition named by the spec: participants are unique by id. -/
def uniqueIds (ps : List Participant) : Prop :=
  (ps.map Participant.id).Nodup

instance uniqueIdsDecidable (ps : List Participant) : Decidable (uniqueIds ps) :=
  inferInstanceAs (Decidable (ps.map Participant.id).Nodup)

/-- The `derangement` boolean computed in `createEncryptedTokensAndVerify`:
`res.every((a) => a.giver.id !== a.recipient.id)`. -/
def computeDerangement (res : List Assignment) : Bool :=
  res.all fun a => a.giver.id != a.recipient.id

/-- The `bijection` boolean computed in `createEncryptedTokensAndVerify`:
`new Set(res.map((a) => a.recipient.id)).size === parts.length`.  The size of
a JS `Set` built from a list is the number of distinct elements, i.e. the
length of `dedup`. -/
def computeBijection (res : List Assignment) (parts : List Participant) : Bool :=
  (res.map fun a => a.recipient.id).dedup.length == parts.length

/-- Modelled from the spec: the ground-truth derangement property of an
Assignment Set — every assignment has `giver.id ≠ recipient.id`. -/
def groundDerangement (res : List Assignment) : Prop :=
  ∀ a ∈ res, a.giver.id ≠ a.recipient.id

/-- Modelled from the spec: the ground-truth bijection property — each
participant occurs exactly once as a recipient. -/
def groundBijection (res : List Assignment) (parts : List Participant) : Prop :=
  ∀ p ∈ parts, (res.map fun a => a.recipient.id).count p.id = 1

instance groundDerangementDecidable (res : List Assignment) :
    Decidable (groundDerangement res) :=
  inferInstanceAs (Decidable (∀ a ∈ res, a.giver.id ≠ a.recipient.id))

instance groundBijectionDecidable (res : List Assignment) (parts : List Participant) :
    Decidable (groundBijection res parts) :=
  inferInstanceAs
    (Decidable (∀ p ∈ parts, (res.map fun a => a.recipient.id).count p.id = 1))

/-- UTF-8 encoding of one character, as `new TextEncoder().encode` does. -/
def utf8EncodeChar (c : Char) : List Nat :=
  let n := c.toNat
  if n < 128 then [n]
  else if n < 2048 then [192 + n / 64, 128 + n % 64]
  else if n < 65536 then [224 + n / 4096, 128 + n / 64 % 64, 128 + n % 64]
  else [240 + n / 262144, 128 + n / 4096 % 64, 128 + n / 64 % 64, 128 + n % 64]

/-- `encoder.encode(s)`: the UTF-8 bytes of `s`. -/
def utf8Encode (s : String) : List Nat :=
  (s.toList.map utf8EncodeChar).flatten

/-- The base64 alphabet used by `btoa`. -/
def base64Chars : List Char :=
  "ABCDEFGHIJKLMNOPQRSTUVWXYZabcdefghijklmnopqrstuvwxyz0123456789+/".toList

/-- Encode a byte list three bytes at a time into base64 characters with
padding, as `btoa` does. -/
def base64Body : List Nat → List Char
  | [] => []
  | [b1] => [base64Chars.getD (b1 / 4) 'A', base64Chars.getD (b1 % 4 * 16) 'A', '=', '=']
  | [b1, b2] =>
    [base64Chars.getD (b1 / 4) 'A', base64Chars.getD (b1 % 4 * 16 + b2 / 16) 'A',
      base64Chars.getD (b2 % 16 * 4) 'A', '=']
  | b1 :: b2 :: b3 :: rest =>
    base64Chars.getD (b1 / 4) 'A' ::
      base64Chars.getD (b1 % 4 * 16 + b2 / 16) 'A' ::
        base64Chars.getD (b2 % 16 * 4 + b3 / 64) 'A' ::
          base64Chars.getD (b3 % 64) 'A' :: base64Body rest

/-- The `toBase64` helper of `page.tsx`: pack the bytes into a binary string
(one char per byte) and `btoa` it — net effect, base64 of the byte list. -/
def toBase64 (buf : List Nat) : String :=
  String.mk (base64Body buf)

/-- The cryptographic environment of `createEncryptedTokensAndVerify`.
`available` models the `window.crypto.subtle` capability check (line 108);
`encrypt iv data` models `subtle.encrypt({name: "AES-GCM", iv}, key, data)`
under the batch key generated at line 115, with `none` a rejected promise;
`randomByte i k` models byte `k` of the `crypto.getRandomValues` draw for
item `i`. -/
structure CryptoEnv where
  available : Bool
  encrypt : List Nat → List Nat → Option (List Nat)
  randomByte : Nat → Nat → Nat

/-- The 12-byte random nonce drawn for item `i`:
`window.crypto.getRandomValues(new Uint8Array(12))`. -/
def getIv (env : CryptoEnv) (i : Nat) : List Nat :=
  (List.range 12).map (env.randomByte i)

/-- The per-item encryption loop (lines 125–135): abort on the first failed
encryption, otherwise emit `toBase64(iv ++ ciphertext)` per assignment, in
input order. -/
def encryptTokensLoop (env : CryptoEnv) : Nat → List Assignment → Option (List String)
  | _, [] => some []
  | i, a :: rest =>
    match env.encrypt (getIv env i) (utf8Encode a.recipient.id) with
    | none => none
    | some ct =>
      match encryptTokensLoop env (i + 1) rest with
      | none => none
      | some ts => some (toBase64 (getIv env i ++ ct) :: ts)

/-- The observable outcome of `createEncryptedTokensAndVerify`: the published
verification state, token state and error state. -/
structure VerifyOutcome where
  verification : Option (Bool × Bool)
  tokens : Option (List String)
  errorMsg : Option String
deriving DecidableEq, Repr

/-- `createEncryptedTokensAndVerify` from `page.tsx`: always computes and
publishes the verification pair; if Web Crypto is unavailable it publishes no
tokens and returns without error; otherwise it runs the encryption loop,
publishing the tokens on success and only the error message (the `catch`
branch) on failure. -/
def createEncryptedTokensAndVerify (env : CryptoEnv) (res : List Assignment)
    (parts : List Participant) : VerifyOutcome :=
  let verif := (computeDerangement res, computeBijection res parts)
  if env.available = false then
    { verification := some verif, tokens := none, errorMsg := none }
  else
    match encryptTokensLoop env 0 res with
    | some ts => { verification := some verif, tokens := some ts, errorMsg := none }
    | none =>
      { verification := some verif, tokens := none,
        errorMsg := some "Failed to create encrypted tokens." }

/-- A JavaScript value, as far as the `send-emails` route inspects the
`assignments` field of its request body. -/
inductive JsValue where
  | undefined
  | null
  | boolean (b : Bool)
  | number (n : Int)
  | string (s : String)
  | array (xs : List Assignment)
  | object
deriving DecidableEq, Repr

/-- JS truthiness of such a value (`!assignments` is its negation). -/
def JsValue.truthy : JsValue → Bool
  | .undefined => false
  | .null => false
  | .boolean b => b
  | .number n => n != 0
  | .string s => s != ""
  | .array _ => true
  | .object => true

/-- `Array.isArray(assignments)`. -/
def JsValue.isArray : JsValue → Bool
  | .array _ => true
  | _ => false

/-- `assignments.length` for an array value (the route only evaluates it
after the `Array.isArray` guard holds or short-circuits). -/
def JsValue.arrayLength : JsValue → Nat
  | .array xs => xs.length
  | _ => 0

/-- Server environment of the route: the effective Maileroo configuration
strings (`none` models an unset variable; an empty string is falsy like in
the source) and `sendOk i`, whether the provider accepts the `i`-th request
(`res.ok`). -/
structure MailEnv where
  apiKey : Option String
  apiUrl : Option String
  sendOk : Nat → Bool

/-- JS truthiness of a `process.env` string. -/
def envTruthy : Option String → Bool
  | none => false
  | some s => s != ""

/-- The observable result of one `POST` call: the JSON response fields. -/
structure RouteResponse where
  status : Nat
  error : Option String
  success : Option Nat
  total : Option Nat
deriving DecidableEq, Repr

/-- The `POST` handler of `route.ts`, applied to the `assignments` field of
the parsed request body.  Returns the response together with the number of
provider send requests issued by the per-recipient loop. -/
def POST (af : JsValue) (env : MailEnv) : RouteResponse × Nat :=
  if !af.truthy || !af.isArray || af.arrayLength == 0 then
    ({ status := 400, error := some "no assignments", success := none, total := none }, 0)
  else if !(envTruthy env.apiKey) || !(envTruthy env.apiUrl) then
    ({ status := 500,
       error := some "Maileroo not configured on server - set MAILEROO_API_KEY and MAILEROO_API_URL",
       success := none, total := none }, 0)
  else
    ({ status := 200, error := none,
       success := some (((List.range af.arrayLength).filter env.sendOk).length),
       total := some af.arrayLength }, af.arrayLength)

/-- Two participants with distinct ids, a concrete test input. -/
def samplePair : List Participant :=
  [⟨"1", "Alice", "alice@example.com"⟩, ⟨"2", "Bob", "bob@example.com"⟩]

/-- The swap Assignment Set over `samplePair`. -/
def sampleSwapRes : List Assignment :=
  [⟨⟨"1", "Alice", "alice@example.com"⟩, ⟨"2", "Bob", "bob@example.com"⟩⟩,
    ⟨⟨"2", "Bob", "bob@example.com"⟩, ⟨"1", "Alice", "alice@example.com"⟩⟩]

/-- Two participants sharing the same id — a duplicate-id input. -/
def dupPair : List Participant :=
  [⟨"a", "P", "p@example.com"⟩, ⟨"a", "Q", "q@example.com"⟩]

/-- A single participant. -/
def soloList : List Participant := [⟨"a", "A", "a@example.com"⟩]

/-- A corrupted Assignment Set whose recipient id is foreign to `soloList`. -/
def foreignRes : List Assignment :=
  [⟨⟨"a", "A", "a@example.com"⟩, ⟨"b", "B", "b@example.com"⟩⟩]

/-- A crypto environment whose cipher echoes the plaintext and always
succeeds. -/
def envOk : CryptoEnv := ⟨true, fun _ data => some data, fun _ _ => 0⟩

/-- A crypto environment without Web Crypto support. -/
def envNoCrypto : CryptoEnv := ⟨false, fun _ _ => none, fun _ _ => 0⟩

/-- A crypto environment whose cipher always fails. -/
def envFail : CryptoEnv := ⟨true, fun _ _ => none, fun _ _ => 0⟩

/-- The token list produced by `envOk` on `sampleSwapRes`. -/
def tsSample : List String := (encryptTokensLoop envOk 0 sampleSwapRes).getD []

/-- A mail environment with no configuration. -/
def mailEnvEmpty : MailEnv := ⟨none, none, fun _ => true⟩

/-- Replacing the element at `k` with `a` and re-consing the old element gives
a permutation of consing `a` directly. -/
theorem cons_get_set_perm {α : Type} (t : List α) :
    ∀ (k : Nat) (hk : k < t.length) (a : α),
      (t.get ⟨k, hk⟩ :: t.set k a).Perm (a :: t) := by
  induction t with
  | nil => intro k hk a; exact absurd hk (Nat.not_lt_zero k)
  | cons b t ih =>
    intro k hk a
    match k with
    | 0 =>
      simp only [List.get, List.set]
      exact List.Perm.swap a b t
    | Nat.succ k' =>
      have hk' : k' < t.length := Nat.lt_of_succ_lt_succ hk
      simp only [List.get, List.set]
      exact (List.Perm.swap b (t.get ⟨k', hk'⟩) (t.set k' a)).trans
        ((List.Perm.cons b (ih k' hk' a)).trans (List.Perm.swap a b t))

/-- Writing `l[j]` at position `i` and `l[i]` at position `j` permutes `l`. -/
theorem set_set_perm {α : Type} :
    ∀ (l : List α) (i j : Nat) (hi : i < l.length) (hj : j < l.length),
      ((l.set i (l.get ⟨j, hj⟩)).set j (l.get ⟨i, hi⟩)).Perm l := by
  intro l
  induction l with
  | nil => intro i j hi _; exact absurd hi (Nat.not_lt_zero i)
  | cons a t ih =>
    intro i j hi hj
    match i, j with
    | 0, 0 =>
      simp only [List.get, List.set]
      exact List.Perm.refl _
    | 0, Nat.succ m =>
      have hm : m < t.length := Nat.lt_of_succ_lt_succ hj
      simp only [List.get, List.set]
      exact cons_get_set_perm t m hm a
    | Nat.succ k, 0 =>
      have hk : k < t.length := Nat.lt_of_succ_lt_succ hi
      simp only [List.get, List.set]
      exact cons_get_set_perm t k hk a
    | Nat.succ k, Nat.succ m =>
      have hk : k < t.length := Nat.lt_of_succ_lt_succ hi
      have hm : m < t.length := Nat.lt_of_succ_lt_succ hj
      simp only [List.get, List.set]
      exact List.Perm.cons a (ih k m hk hm)

/-- `listSwap` permutes the list. -/
theorem listSwap_perm {α : Type} (l : List α) (i j : Nat) :
    (listSwap l i j).Perm l := by
  unfold listSwap
  split
  · next x y hi hj =>
    have hi' : i < l.length := (List.getElem?_eq_some.mp hi).1
    have hj' : j < l.length := (List.getElem?_eq_some.mp hj).1
    have hx : l.get ⟨i, hi'⟩ = x := by
      have := (List.getElem?_eq_some.mp hi).2
      simpa [List.get_eq_getElem] using this
    have hy : l.get ⟨j, hj'⟩ = y := by
      have := (List.getElem?_eq_some.mp hj).2
      simpa [List.get_eq_getElem] using this
    have := set_set_perm l i j hi' hj'
    rwa [hx, hy] at this
  · exact List.Perm.refl l

/-- Every run of the shuffle loop permutes its input. -/
theorem shuffleLoop_perm {α : Type} (rand : Nat → Nat) :
    ∀ (i : Nat) (a : List α), (shuffleLoop rand i a).Perm a
  | 0, _ => List.Perm.refl _
  | i + 1, a =>
    (shuffleLoop_perm rand i (listSwap a (i + 1) (rand (i + 1) % (i + 2)))).trans
      (listSwap_perm a (i + 1) (rand (i + 1) % (i + 2)))

/-- `shuffle` returns a permutation of its input, whatever the random draws. -/
theorem shuffle_perm {α : Type} (arr : List α) (rand : Nat → Nat) :
    (shuffle arr rand).Perm arr :=
  shuffleLoop_perm rand (arr.length - 1) arr

/-- `shuffle` preserves length. -/
theorem shuffle_length {α : Type} (arr : List α) (rand : Nat → Nat) :
    (shuffle arr rand).length = arr.length :=
  (shuffle_perm arr rand).length_eq

theorem derangementOk_iff (ps rs : List Participant) :
    derangementOk ps rs = true ↔
      ∀ i < ps.length, (ps.getD i default).id ≠ (rs.getD i default).id := by
  simp [derangementOk, List.all_eq_true, List.mem_range, bne_iff_ne]

/-- A successful retry loop returns a candidate that passed the check and is a
permutation of the participants. -/
theorem findDerangement_some (ps : List Participant) (rand : Nat → Nat → Nat) :
    ∀ (attempt fuel : Nat) (rs : List Participant),
      findDerangement ps rand attempt fuel = some rs →
      derangementOk ps rs = true ∧ rs.Perm ps
  | _, 0, _, h => by simp [findDerangement] at h
  | attempt, fuel + 1, rs, h => by
    rw [findDerangement] at h
    split at h
    · next hok =>
      injection h with h'
      subst h'
      exact ⟨hok, shuffle_perm ps (rand attempt)⟩
    · exact findDerangement_some ps rand (attempt + 1) fuel rs h

/-- If each of the attempts the loop performs has its shuffle fail the
check, the retry loop fails. -/
theorem findDerangement_none (ps : List Participant) (rand : Nat → Nat → Nat) :
    ∀ (attempt fuel : Nat),
      (∀ k < attempt + fuel, derangementOk ps (shuffle ps (rand k)) = false) →
      findDerangement ps rand attempt fuel = none
  | _, 0, _ => rfl
  | attempt, fuel + 1, hfail => by
    rw [findDerangement, hfail attempt (by omega)]
    simp only [Bool.false_eq_true, if_false]
    exact findDerangement_none ps rand (attempt + 1) fuel
      (fun k hk => hfail k (by omega))

theorem zipWith_pair_map_giver :
    ∀ (ps rs : List Participant), rs.length = ps.length →
      (List.zipWith (fun p r => Assignment.mk p r) ps rs).map Assignment.giver = ps
  | [], [], _ => rfl
  | [], _ :: _, h => by simp at h
  | _ :: _, [], h => by simp at h
  | p :: ps, r :: rs, h => by
    simp only [List.zipWith, List.map]
    exact congrArg (p :: ·) (zipWith_pair_map_giver ps rs (by simpa using h))

theorem zipWith_pair_map_recipient :
    ∀ (ps rs : List Participant), rs.length = ps.length →
      (List.zipWith (fun p r => Assignment.mk p r) ps rs).map Assignment.recipient = rs
  | [], [], _ => rfl
  | [], _ :: _, h => by simp at h
  | _ :: _, [], h => by simp at h
  | p :: ps, r :: rs, h => by
    simp only [List.zipWith, List.map]
    exact congrArg (r :: ·) (zipWith_pair_map_recipient ps rs (by simpa using h))

/-- Case analysis on the engine's result for inputs of size at least 2. -/
theorem assign_eq_cases (ps : List Participant) (rand : Nat → Nat → Nat)
    (h2 : 2 ≤ ps.length) :
    (∃ rs, derangementOk ps rs = true ∧ rs.Perm ps ∧
      assignSecretSantas ps rand = List.zipWith (fun p r => Assignment.mk p r) ps rs) ∨
    (findDerangement ps rand 0 1000 = none ∧
      assignSecretSantas ps rand = rotationAssign ps) := by
  have hn : ¬ ps.length < 2 := by omega
  match hfd : findDerangement ps rand 0 1000 with
  | some rs =>
    left
    obtain ⟨hok, hperm⟩ := findDerangement_some ps rand 0 1000 rs hfd
    exact ⟨rs, hok, hperm, by rw [assignSecretSantas, if_neg hn, hfd]⟩
  | none =>
    right
    exact ⟨rfl, by rw [assignSecretSantas, if_neg hn, hfd]⟩

theorem rotationAssign_length (ps : List Participant) :
    (rotationAssign ps).length = ps.length := by
  simp [rotationAssign]

theorem rotationAssign_getElem (ps : List Participant) (i : Nat)
    (hi : i < ps.length) (hi2 : i < (rotationAssign ps).length) :
    (rotationAssign ps)[i] =
      Assignment.mk ps[i] (ps.getD ((i + 1) % ps.length) default) := by
  have h := List.get_mapIdx ps
    (fun i p => Assignment.mk p (ps.getD ((i + 1) % ps.length) default)) i hi
  rw [List.get_eq_getElem, List.get_eq_getElem] at h
  exact h

theorem rotationAssign_map_giver (ps : List Participant) :
    (rotationAssign ps).map Assignment.giver = ps := by
  apply List.ext_getElem
  · simp [rotationAssign_length]
  · intro i h1 h2
    have hr : i < (rotationAssign ps).length := by
      simpa [rotationAssign_length] using h2
    rw [List.getElem_map, rotationAssign_getElem ps i h2 hr]

theorem rotationAssign_map_recipient (ps : List Participant) :
    (rotationAssign ps).map Assignment.recipient = ps.rotate 1 := by
  rcases hps : ps with _ | ⟨p, t⟩
  · rfl
  · apply List.ext_getElem
    · simp [rotationAssign_length, List.length_rotate]
    · intro i h1 h2
      have hi : i < (p :: t).length := by
        simpa [rotationAssign_length] using h1
      have hr : i < (rotationAssign (p :: t)).length := by
        simpa [rotationAssign_length] using h1
      have hlt : (i + 1) % (p :: t).length < (p :: t).length :=
        Nat.mod_lt _ (by simp)
      rw [List.getElem_map, rotationAssign_getElem (p :: t) i hi hr,
        List.getElem_rotate]
      exact List.getD_eq_getElem _ _ hlt

theorem succ_mod_ne (n i : Nat) (h2 : 2 ≤ n) (hi : i < n) : (i + 1) % n ≠ i := by
  rcases Nat.lt_or_ge (i + 1) n with h | h
  · rw [Nat.mod_eq_of_lt h]; omega
  · have hn : i + 1 = n := by omega
    rw [hn, Nat.mod_self]; omega

theorem nodup_ids_get_ne (ps : List Participant) (hu : uniqueIds ps)
    (i j : Nat) (hi : i < ps.length) (hj : j < ps.length) (hij : i ≠ j) :
    (ps.get ⟨i, hi⟩).id ≠ (ps.get ⟨j, hj⟩).id := by
  intro h
  have hi2 : i < (ps.map Participant.id).length := by simpa using hi
  have hj2 : j < (ps.map Participant.id).length := by simpa using hj
  have hmap : (ps.map Participant.id).get ⟨i, hi2⟩ =
      (ps.map Participant.id).get ⟨j, hj2⟩ := by
    simpa [List.get_eq_getElem, List.getElem_map] using h
  have := (List.Nodup.get_inj_iff hu).mp hmap
  exact hij (by simpa using congrArg Fin.val this)

theorem rotationAssign_derangement (ps : List Participant) (hu : uniqueIds ps)
    (h2 : 2 ≤ ps.length) :
    ∀ a ∈ rotationAssign ps, a.giver.id ≠ a.recipient.id := by
  intro a ha
  obtain ⟨⟨i, hi⟩, rfl⟩ := List.mem_iff_get.mp ha
  have hips : i < ps.length := by simpa [rotationAssign_length] using hi
  have hlt : (i + 1) % ps.length < ps.length := Nat.mod_lt _ (by omega)
  rw [List.get_eq_getElem, rotationAssign_getElem ps i hips hi,
    List.getD_eq_getElem _ _ hlt]
  have hne : i ≠ (i + 1) % ps.length := (succ_mod_ne ps.length i h2 hips).symm
  simpa [List.get_eq_getElem] using
    nodup_ids_get_ne ps hu i ((i + 1) % ps.length) hips hlt hne

/-- C1: for every unique-by-id input with at least 2 participants, every
assignment returned by `assignSecretSantas` satisfies
`giver.id ≠ recipient.id`, regardless of which random permutations are
drawn. -/
theorem assign_derangement (ps : List Participant) (rand : Nat → Nat → Nat)
    (hu : uniqueIds ps) (h2 : 2 ≤ ps.length) :
    ∀ a ∈ assignSecretSantas ps rand, a.giver.id ≠ a.recipient.id := by
  rcases assign_eq_cases ps rand h2 with ⟨rs, hok, hperm, heq⟩ | ⟨_, heq⟩
  · rw [heq]
    intro a ha
    obtain ⟨⟨i, hi⟩, rfl⟩ := List.mem_iff_get.mp ha
    have hips : i < ps.length := List.lt_length_left_of_zipWith hi
    have hirs : i < rs.length := List.lt_length_right_of_zipWith hi
    rw [List.get_zipWith]
    have hthis := (derangementOk_iff ps rs).mp hok i hips
    rw [List.getD_eq_getElem _ _ hips, List.getD_eq_getElem _ _ hirs] at hthis
    simpa [List.get_eq_getElem] using hthis
  · rw [heq]
    exact rotationAssign_derangement ps hu h2

/-- C1 witness: on a concrete two-participant input the first returned
assignment is not a self-assignment. -/
theorem assign_derangement_witness :
    ((assignSecretSantas samplePair (fun _ _ => 0)).getD 0 default).giver.id ≠
      ((assignSecretSantas samplePair (fun _ _ => 0)).getD 0 default).recipient.id :=
  assign_derangement samplePair (fun _ _ => 0) (by decide) (by decide) _ (by decide)

/-- C2: for every unique-by-id input with at least 2 participants, the
recipients of the returned Assignment Set are a permutation of the input
participants, and each participant's id occurs exactly once among the
recipient ids. -/
theorem assign_bijection (ps : List Participant) (rand : Nat → Nat → Nat)
    (hu : uniqueIds ps) (h2 : 2 ≤ ps.length) :
    ((assignSecretSantas ps rand).map Assignment.recipient).Perm ps ∧
    ∀ p ∈ ps,
      ((assignSecretSantas ps rand).map (fun a => a.recipient.id)).count p.id = 1 := by
  have hperm : ((assignSecretSantas ps rand).map Assignment.recipient).Perm ps := by
    rcases assign_eq_cases ps rand h2 with ⟨rs, _, hp, heq⟩ | ⟨_, heq⟩
    · rw [heq, zipWith_pair_map_recipient ps rs hp.length_eq]
      exact hp
    · rw [heq, rotationAssign_map_recipient]
      exact List.rotate_perm ps 1
  refine ⟨hperm, ?_⟩
  intro p hp
  have hids : ((assignSecretSantas ps rand).map (fun a => a.recipient.id)).Perm
      (ps.map Participant.id) := by
    simpa [List.map_map, Function.comp] using hperm.map Participant.id
  rw [hids.count_eq]
  exact List.count_eq_one_of_mem hu (List.mem_map_of_mem Participant.id hp)

/-- C2 witness: on a concrete two-participant input the id `"1"` occurs
exactly once among the recipient ids. -/
theorem assign_bijection_witness :
    ((assignSecretSantas samplePair (fun _ _ => 0)).map
      (fun a => a.recipient.id)).count "1" = 1 :=
  (assign_bijection samplePair (fun _ _ => 0) (by decide) (by decide)).2
    ⟨"1", "Alice", "alice@example.com"⟩ (by decide)

/-- C3: if each of the 1000 random attempts fails the derangement check, the
engine returns the deterministic rotation, and for unique-by-id inputs with
at least 2 participants the rotation satisfies both the derangement and the
bijection properties. -/
theorem assign_fallback_rotation (ps : List Participant) (rand : Nat → Nat → Nat)
    (hu : uniqueIds ps) (h2 : 2 ≤ ps.length)
    (hfail : ∀ k < 1000, derangementOk ps (shuffle ps (rand k)) = false) :
    assignSecretSantas ps rand = rotationAssign ps ∧
    (∀ a ∈ rotationAssign ps, a.giver.id ≠ a.recipient.id) ∧
    ((rotationAssign ps).map Assignment.recipient).Perm ps := by
  have hnone := findDerangement_none ps rand 0 1000 (fun k hk => hfail k (by omega))
  have hn : ¬ ps.length < 2 := by omega
  refine ⟨by rw [assignSecretSantas, if_neg hn, hnone],
    rotationAssign_derangement ps hu h2, ?_⟩
  rw [rotationAssign_map_recipient]
  exact List.rotate_perm ps 1

/-- C3 witness: with the identity random oracle every shuffle attempt on
`samplePair` collides, and the engine indeed returns the rotation. -/
theorem assign_fallback_rotation_witness :
    assignSecretSantas samplePair (fun _ i => i) = rotationAssign samplePair :=
  (assign_fallback_rotation samplePair (fun _ i => i) (by decide) (by decide)
    (fun _ _ =>
      (by decide : derangementOk samplePair (shuffle samplePair (fun i => i)) = false))).1

/-- C4: the engine returns exactly `n` assignments for `n ≥ 2` participants
and exactly `0` for fewer, and in the `n ≥ 2` case the givers are exactly
the input participants in input order. -/
theorem assign_output_shape (ps : List Participant) (rand : Nat → Nat → Nat) :
    (ps.length < 2 → assignSecretSantas ps rand = []) ∧
    (2 ≤ ps.length → (assignSecretSantas ps rand).length = ps.length ∧
      (assignSecretSantas ps rand).map Assignment.giver = ps) := by
  constructor
  · intro h
    rw [assignSecretSantas, if_pos h]
  · intro h2
    have hg : (assignSecretSantas ps rand).map Assignment.giver = ps := by
      rcases assign_eq_cases ps rand h2 with ⟨rs, _, hp, heq⟩ | ⟨_, heq⟩
      · rw [heq]
        exact zipWith_pair_map_giver ps rs hp.length_eq
      · rw [heq]
        exact rotationAssign_map_giver ps
    refine ⟨?_, hg⟩
    simpa using congrArg List.length hg

/-- C4 witness: on the concrete two-participant input the output has length 2
and its givers are the input participants in order. -/
theorem assign_output_shape_witness :
    (assignSecretSantas samplePair (fun _ _ => 0)).length = samplePair.length ∧
    (assignSecretSantas samplePair (fun _ _ => 0)).map Assignment.giver = samplePair :=
  (assign_output_shape samplePair (fun _ _ => 0)).2 (by decide)

/-- C5 (amended): the computed `derangement` flag always agrees with the
ground truth; the computed `bijection` flag agrees with the ground-truth
bijection property provided the participants are unique by id, the
Assignment Set has exactly one assignment per participant, and every
recipient id is drawn from the participant ids.  For corrupted sets whose
recipient ids are foreign to the participants the two can disagree. -/
theorem verification_oracle_agreement (res : List Assignment) (parts : List Participant) :
    (computeDerangement res = true ↔ groundDerangement res) ∧
    (uniqueIds parts → res.length = parts.length →
      (∀ a ∈ res, a.recipient.id ∈ parts.map Participant.id) →
      (computeBijection res parts = true ↔ groundBijection res parts)) := by
  constructor
  · simp [computeDerangement, groundDerangement, List.all_eq_true, bne_iff_ne]
  · intro hu hlen hsub
    have hsub2 : (res.map fun a => a.recipient.id) ⊆ parts.map Participant.id := by
      intro x hx
      obtain ⟨a, ha, rfl⟩ := List.mem_map.mp hx
      exact hsub a ha
    have hRlen : (res.map fun a => a.recipient.id).length =
        (parts.map Participant.id).length := by simp [hlen]
    constructor
    · intro h
      simp only [computeBijection, beq_iff_eq] at h
      have hdl : (res.map fun a => a.recipient.id).dedup.length =
          (res.map fun a => a.recipient.id).length := by
        simp only [List.length_map, hlen]
        omega
      have hnodupR : (res.map fun a => a.recipient.id).Nodup := by
        have heq := (List.dedup_sublist (res.map fun a => a.recipient.id)).eq_of_length hdl
        rw [← heq]
        exact List.nodup_dedup _
      have hperm : (res.map fun a => a.recipient.id).Perm (parts.map Participant.id) :=
        (hnodupR.subperm hsub2).perm_of_length_le (by omega)
      intro p hp
      rw [hperm.count_eq]
      exact List.count_eq_one_of_mem hu (List.mem_map_of_mem _ hp)
    · intro h
      have hperm : (res.map fun a => a.recipient.id).Perm (parts.map Participant.id) := by
        rw [List.perm_iff_count]
        intro x
        by_cases hx : x ∈ parts.map Participant.id
        · obtain ⟨p, hp, rfl⟩ := List.mem_map.mp hx
          rw [h p hp]
          exact (List.count_eq_one_of_mem hu hx).symm
        · rw [List.count_eq_zero_of_not_mem hx,
            List.count_eq_zero_of_not_mem (fun hmem => hx (hsub2 hmem))]
      have hnodupR : (res.map fun a => a.recipient.id).Nodup := hperm.nodup_iff.mpr hu
      simp only [computeBijection, beq_iff_eq, hnodupR.dedup]
      simp [hlen]

/-- C5 counterexample: on a corrupted Assignment Set whose single recipient id
is not drawn from the participant list, the computed `bijection` flag is
`true` while the ground-truth bijection property fails. -/
theorem verification_oracle_counterexample :
    computeBijection foreignRes soloList = true ∧
      ¬ groundBijection foreignRes soloList := by
  constructor
  · decide
  · decide

/-- C5 witness: on a well-formed swap Assignment Set over `samplePair`, both
computed flags agree with the ground truths. -/
theorem verification_oracle_agreement_witness :
    (computeDerangement sampleSwapRes = true ↔ groundDerangement sampleSwapRes) ∧
    (computeBijection sampleSwapRes samplePair = true ↔
      groundBijection sampleSwapRes samplePair) :=
  ⟨(verification_oracle_agreement sampleSwapRes samplePair).1,
    (verification_oracle_agreement sampleSwapRes samplePair).2
      (by decide) (by decide) (by decide)⟩

/-- A successful encryption loop yields one token per assignment, in order:
token `i` is the base64 of the item-`i` nonce followed by the item-`i`
ciphertext. -/
theorem encryptTokensLoop_some (env : CryptoEnv) :
    ∀ (start : Nat) (res : List Assignment) (ts : List String),
      encryptTokensLoop env start res = some ts →
      ts.length = res.length ∧
      ∀ i (hi : i < res.length),
        ∃ ct, env.encrypt (getIv env (start + i))
            (utf8Encode (res.get ⟨i, hi⟩).recipient.id) = some ct ∧
          ts.getD i "" = toBase64 (getIv env (start + i) ++ ct)
  | _, [], ts, h => by
    injection h with h'
    subst h'
    exact ⟨rfl, fun i hi => absurd hi (by simp)⟩
  | start, a :: rest, ts, h => by
    rw [encryptTokensLoop] at h
    split at h
    · exact absurd h (by simp)
    · next ct hct =>
      split at h
      · exact absurd h (by simp)
      · next ts' hts' =>
        injection h with h'
        subst h'
        obtain ⟨hlen, htail⟩ := encryptTokensLoop_some env (start + 1) rest ts' hts'
        refine ⟨by simp [hlen], ?_⟩
        intro i hi
        match i with
        | 0 => exact ⟨ct, by simpa using hct, by simp⟩
        | Nat.succ j =>
          have hj : j < rest.length := Nat.lt_of_succ_lt_succ hi
          obtain ⟨ct2, hct2, hval2⟩ := htail j hj
          refine ⟨ct2, ?_, ?_⟩
          · have harith : start + (j + 1) = start + 1 + j := by omega
            rw [harith]
            simpa using hct2
          · have harith : start + (j + 1) = start + 1 + j := by omega
            rw [harith]
            simpa using hval2

/-- If the token state was published, the loop succeeded on the whole list. -/
theorem tokens_published_of_loop (env : CryptoEnv) (res : List Assignment)
    (parts : List Participant) (ts : List String)
    (h : (createEncryptedTokensAndVerify env res parts).tokens = some ts) :
    encryptTokensLoop env 0 res = some ts := by
  rw [createEncryptedTokensAndVerify] at h
  by_cases hav : env.available = false
  · rw [if_pos hav] at h
    exact absurd h (by simp)
  · rw [if_neg hav] at h
    match hloop : encryptTokensLoop env 0 res with
    | some ts' =>
      rw [hloop] at h
      simp only [Option.some.injEq] at h
      rw [← h]
    | none =>
      rw [hloop] at h
      exact absurd h (by simp)

/-- C6: a successful token generation publishes exactly `n` tokens,
index-aligned with the assignments, where token `i` is the base64 encoding of
the 12-byte random nonce for item `i` concatenated with the ciphertext of the
UTF-8 encoding of assignment `i`'s recipient id. -/
theorem token_count_order (env : CryptoEnv) (res : List Assignment)
    (parts : List Participant) (ts : List String)
    (h : (createEncryptedTokensAndVerify env res parts).tokens = some ts) :
    ts.length = res.length ∧
    ∀ i (hi : i < res.length), (getIv env i).length = 12 ∧
      ∃ ct, env.encrypt (getIv env i)
          (utf8Encode (res.get ⟨i, hi⟩).recipient.id) = some ct ∧
        ts.getD i "" = toBase64 (getIv env i ++ ct) := by
  obtain ⟨hlen, hall⟩ :=
    encryptTokensLoop_some env 0 res ts (tokens_published_of_loop env res parts ts h)
  refine ⟨hlen, ?_⟩
  intro i hi
  obtain ⟨ct, hct, hval⟩ := hall i hi
  rw [Nat.zero_add] at hct hval
  exact ⟨by simp [getIv], ct, hct, hval⟩

/-- C6 witness: on the concrete swap Assignment Set with an echoing cipher,
two tokens are published and the item-0 nonce has 12 bytes. -/
theorem token_count_order_witness :
    tsSample.length = sampleSwapRes.length ∧ (getIv envOk 0).length = 12 :=
  ⟨(token_count_order envOk sampleSwapRes samplePair tsSample rfl).1,
    ((token_count_order envOk sampleSwapRes samplePair tsSample rfl).2 0 (by decide)).1⟩

/-- C7: when Web Crypto is unavailable the operation completes with no
tokens and no error, and the verification result is still published. -/
theorem crypto_unavailable_graceful (env : CryptoEnv) (res : List Assignment)
    (parts : List Participant) (hav : env.available = false) :
    createEncryptedTokensAndVerify env res parts =
      { verification := some (computeDerangement res, computeBijection res parts),
        tokens := none, errorMsg := none } := by
  rw [createEncryptedTokensAndVerify, if_pos hav]

/-- C7 witness: on a concrete crypto-free environment the outcome has the
verification pair, no tokens and no error. -/
theorem crypto_unavailable_graceful_witness :
    createEncryptedTokensAndVerify envNoCrypto sampleSwapRes samplePair =
      { verification := some (computeDerangement sampleSwapRes,
          computeBijection sampleSwapRes samplePair),
        tokens := none, errorMsg := none } :=
  crypto_unavailable_graceful envNoCrypto sampleSwapRes samplePair rfl

/-- If some item's encryption fails, the whole loop fails. -/
theorem encryptTokensLoop_none (env : CryptoEnv) :
    ∀ (start : Nat) (res : List Assignment),
      (∃ i, ∃ hi : i < res.length,
        env.encrypt (getIv env (start + i))
          (utf8Encode (res.get ⟨i, hi⟩).recipient.id) = none) →
      encryptTokensLoop env start res = none
  | _, [], h => by
    obtain ⟨i, hi, _⟩ := h
    exact absurd hi (by simp)
  | start, a :: rest, h => by
    rw [encryptTokensLoop]
    obtain ⟨i, hi, hfaili⟩ := h
    match i with
    | 0 =>
      rw [show start + 0 = start by omega] at hfaili
      rw [show (((a :: rest).get ⟨0, hi⟩)) = a from rfl] at hfaili
      rw [hfaili]
    | Nat.succ j =>
      have hj : j < rest.length := Nat.lt_of_succ_lt_succ hi
      have hrec : encryptTokensLoop env (start + 1) rest = none := by
        apply encryptTokensLoop_none env (start + 1) rest
        refine ⟨j, hj, ?_⟩
        rw [show start + 1 + j = start + (j + 1) by omega]
        exact hfaili
      split
      · rfl
      · rw [hrec]

/-- C8: if encryption of any item fails (and Web Crypto is available so the
loop actually runs), the whole operation aborts: no token list at all is
published — in particular no strict non-empty partial token set — and the
failure is signalled through the error message. -/
theorem encrypt_failure_aborts (env : CryptoEnv) (res : List Assignment)
    (parts : List Participant) (hav : env.available = true)
    (hfail : ∃ i, ∃ hi : i < res.length,
      env.encrypt (getIv env i) (utf8Encode (res.get ⟨i, hi⟩).recipient.id) = none) :
    (createEncryptedTokensAndVerify env res parts).tokens = none ∧
    (createEncryptedTokensAndVerify env res parts).errorMsg =
      some "Failed to create encrypted tokens." := by
  have hloop : encryptTokensLoop env 0 res = none := by
    apply encryptTokensLoop_none env 0 res
    obtain ⟨i, hi, hf⟩ := hfail
    exact ⟨i, hi, by simpa using hf⟩
  have hav2 : ¬ env.available = false := by simp [hav]
  constructor
  · rw [createEncryptedTokensAndVerify, if_neg hav2, hloop]
  · rw [createEncryptedTokensAndVerify, if_neg hav2, hloop]

/-- C8 witness: with an always-failing cipher on a concrete Assignment Set,
no tokens are published and the failure message is signalled. -/
theorem encrypt_failure_aborts_witness :
    (createEncryptedTokensAndVerify envFail sampleSwapRes samplePair).tokens = none ∧
    (createEncryptedTokensAndVerify envFail sampleSwapRes samplePair).errorMsg =
      some "Failed to create encrypted tokens." :=
  encrypt_failure_aborts envFail sampleSwapRes samplePair rfl ⟨0, by decide, rfl⟩

/-- If every participant has the same id, every candidate permutation fails
the derangement check. -/
theorem derangementOk_false_const (ps rs : List Participant) (c : String)
    (h2 : 2 ≤ ps.length) (hlen : rs.length = ps.length)
    (hps : ∀ p ∈ ps, p.id = c) (hrs : ∀ p ∈ rs, p.id = c) :
    derangementOk ps rs = false := by
  rw [Bool.eq_false_iff]
  intro htrue
  have h0 := (derangementOk_iff ps rs).mp htrue 0 (by omega)
  have hp0 : ps.getD 0 default ∈ ps := by
    have hpos : 0 < ps.length := by omega
    rw [List.getD_eq_getElem _ _ hpos]
    exact List.getElem_mem hpos
  have hr0 : rs.getD 0 default ∈ rs := by
    have hpos : 0 < rs.length := by omega
    rw [List.getD_eq_getElem _ _ hpos]
    exact List.getElem_mem hpos
  exact h0 (by rw [hps _ hp0, hrs _ hr0])

/-- On an input whose ids all coincide, every attempt fails and the engine
silently returns the rotation. -/
theorem assign_const_ids_rotation (ps : List Participant) (rand : Nat → Nat → Nat)
    (c : String) (h2 : 2 ≤ ps.length) (hall : ∀ p ∈ ps, p.id = c) :
    assignSecretSantas ps rand = rotationAssign ps := by
  have hfail : ∀ k, k < 0 + 1000 → derangementOk ps (shuffle ps (rand k)) = false := by
    intro k _
    apply derangementOk_false_const ps (shuffle ps (rand k)) c h2
      (shuffle_length ps (rand k)) hall
    intro p hp
    exact hall p ((shuffle_perm ps (rand k)).mem_iff.mp hp)
  have hn : ¬ ps.length < 2 := by omega
  rw [assignSecretSantas, if_neg hn, findDerangement_none ps rand 0 1000 hfail]

/-- C9 (amended): the engine performs no input validation and signals no
invalid-input error: on any input whose participant ids all coincide (a
duplicate-id input) with at least 2 participants it still returns an
Assignment Set — the rotation fallback — whose first pair violates the
derangement property. -/
theorem assign_no_input_validation (ps : List Participant) (rand : Nat → Nat → Nat)
    (c : String) (h2 : 2 ≤ ps.length) (hall : ∀ p ∈ ps, p.id = c) :
    assignSecretSantas ps rand = rotationAssign ps ∧
    ∃ a ∈ assignSecretSantas ps rand, a.giver.id = a.recipient.id := by
  have heq := assign_const_ids_rotation ps rand c h2 hall
  refine ⟨heq, ?_⟩
  rw [heq]
  have hps0 : 0 < ps.length := by omega
  have h0 : 0 < (rotationAssign ps).length := by
    rw [rotationAssign_length]
    omega
  refine ⟨(rotationAssign ps).get ⟨0, h0⟩, List.get_mem _ _ h0, ?_⟩
  rw [List.get_eq_getElem, rotationAssign_getElem ps 0 hps0 h0]
  have h1 : 1 < ps.length := by omega
  have h1n : (0 + 1) % ps.length = 1 := Nat.mod_eq_of_lt (by omega)
  rw [h1n, List.getD_eq_getElem _ _ h1]
  rw [hall _ (List.getElem_mem hps0), hall _ (List.getElem_mem h1)]

/-- C9 counterexample: on a concrete duplicate-id input the engine returns a
non-empty Assignment Set (no invalid-input error is possible in its type)
containing a self-assignment by id. -/
theorem assign_validation_counterexample :
    assignSecretSantas dupPair (fun _ _ => 1) ≠ [] ∧
    ∃ a ∈ assignSecretSantas dupPair (fun _ _ => 1), a.giver.id = a.recipient.id := by
  have heq := assign_const_ids_rotation dupPair (fun _ _ => 1) "a" (by decide) (by decide)
  rw [heq]
  constructor
  · decide
  · decide

/-- C9 witness: the amended statement at the concrete duplicate-id input. -/
theorem assign_no_input_validation_witness :
    assignSecretSantas dupPair (fun _ _ => 0) = rotationAssign dupPair ∧
    ∃ a ∈ assignSecretSantas dupPair (fun _ _ => 0), a.giver.id = a.recipient.id :=
  assign_no_input_validation dupPair (fun _ _ => 0) "a" (by decide) (by decide)

/-- When the `assignments` field is not a non-empty array, the route answers
400 "no assignments" with no provider requests. -/
theorem POST_eq_400 (af : JsValue) (env : MailEnv)
    (h : af.isArray = false ∨ af.arrayLength = 0) :
    POST af env =
      ({ status := 400, error := some "no assignments",
         success := none, total := none }, 0) := by
  have hg : (!af.truthy || !af.isArray || af.arrayLength == 0) = true := by
    rcases h with h | h
    · rw [h]
      simp
    · rw [h]
      simp
  rw [POST, if_pos hg]

/-- C10: a POST body whose `assignments` field is missing, non-array or an
empty array gets status 400 with error "no assignments" and triggers no
provider send requests; conversely, the per-recipient loop only issues
requests when the field is a non-empty array. -/
theorem post_rejects_missing_assignments (af : JsValue) (env : MailEnv) :
    ((∀ xs, af ≠ JsValue.array xs ∨ xs = []) →
      POST af env =
        ({ status := 400, error := some "no assignments",
           success := none, total := none }, 0)) ∧
    ((POST af env).2 ≠ 0 → ∃ xs, af = JsValue.array xs ∧ xs ≠ []) := by
  constructor
  · intro h
    apply POST_eq_400
    cases af with
    | array xs =>
      rcases h xs with h' | h'
      · exact absurd rfl h'
      · right
        rw [h']
        rfl
    | undefined => exact Or.inl rfl
    | null => exact Or.inl rfl
    | boolean b => exact Or.inl rfl
    | number n => exact Or.inl rfl
    | string s => exact Or.inl rfl
    | object => exact Or.inl rfl
  · intro h
    cases af with
    | array xs =>
      by_cases hxs : xs.length = 0
      · rw [POST_eq_400 (JsValue.array xs) env (Or.inr hxs)] at h
        exact absurd rfl h
      · exact ⟨xs, rfl, fun hnil => hxs (by rw [hnil]; rfl)⟩
    | undefined =>
      rw [POST_eq_400 JsValue.undefined env (Or.inl rfl)] at h
      exact absurd rfl h
    | null =>
      rw [POST_eq_400 JsValue.null env (Or.inl rfl)] at h
      exact absurd rfl h
    | boolean b =>
      rw [POST_eq_400 (JsValue.boolean b) env (Or.inl rfl)] at h
      exact absurd rfl h
    | number n =>
      rw [POST_eq_400 (JsValue.number n) env (Or.inl rfl)] at h
      exact absurd rfl h
    | string s =>
      rw [POST_eq_400 (JsValue.string s) env (Or.inl rfl)] at h
      exact absurd rfl h
    | object =>
      rw [POST_eq_400 JsValue.object env (Or.inl rfl)] at h
      exact absurd rfl h

/-- C10 witness: a body with no `assignments` field (JS `undefined`) gets a
400 "no assignments" response and zero provider requests. -/
theorem post_rejects_missing_assignments_witness :
    POST JsValue.undefined mailEnvEmpty =
      ({ status := 400, error := some "no assignments",
         success := none, total := none }, 0) :=
  (post_rejects_missing_assignments JsValue.undefined mailEnvEmpty).1
    (fun _ => Or.inl (fun h => JsValue.noConfusion h))

end SecretSanta
